import Mathlib

/-!
Verification of the prefix-expansion crawler in `main.py` (class
`StuttgartStreetFetcher`).  The mutable object state is embedded as an explicit
`FetcherState` record threaded through the operations; the HTTP autocomplete
endpoint is an oracle parameter `suggest`; the unbounded Python recursion is
fuel-indexed (fuel `0` returns the state unchanged, and every theorem that
needs the call to actually run takes a successor fuel).  Each explorer also
returns the list of queries it issued, in order, so that statements about
"issues no query" / "queries every child" are about a concrete log.

Python strings used as growing prefixes are embedded as `List Char`; strings
used opaquely (street names, house numbers, the `f"{street}#{prefix}"` query
keys) stay `String`.  A Python `set` is embedded as a duplicate-free list used
only through membership and add; a Python `dict` is an insertion-ordered
association list with unique keys.
-/

namespace Stuttgart

/-- Python `set.add`: keep the element set, appending the element if absent. -/
def setAdd {α : Type} [DecidableEq α] (s : List α) (x : α) : List α :=
  if x ∈ s then s else s ++ [x]

/-- Keys of the embedded `dict` (insertion order). -/
def dictKeys (d : List (String × List String)) : List String :=
  d.map Prod.fst

/-- Python `d[k]` lookup (first matching key). -/
def dictFind : List (String × List String) → String → Option (List String)
  | [], _ => none
  | (k, v) :: t, key => if k = key then some v else dictFind t key

/-- Python `d[k] = v`: replace the value of an existing key, else append. -/
def dictSet : List (String × List String) → String → List String → List (String × List String)
  | [], k, v => [(k, v)]
  | (k', v') :: t, k, v => if k' = k then (k, v) :: t else (k', v') :: dictSet t k v

/-- `main.py` line 104-106: append `n` to `street`'s list when not already present. -/
def addNumber (d : List (String × List String)) (street : String) (n : String) :
    List (String × List String) :=
  if n ∈ (dictFind d street).getD [] then d
  else dictSet d street ((dictFind d street).getD [] ++ [n])

/-- The `for number in house_numbers` loop of `explore_house_numbers`. -/
def addNumbers (d : List (String × List String)) (street : String) (ns : List String) :
    List (String × List String) :=
  ns.foldl (fun d n => addNumber d street n) d

/-- The house numbers currently recorded for a street (empty when absent). -/
def numbersOf (d : List (String × List String)) (street : String) : List String :=
  (dictFind d street).getD []

/-- lines 101-102: `if street not in self.street_numbers: self.street_numbers[street] = []` —
create the street's (empty) entry when the key is missing. -/
def ensure (d : List (String × List String)) (street : String) : List (String × List String) :=
  if street ∈ dictKeys d then d else d ++ [(street, [])]

/-- The four mutable containers of `StuttgartStreetFetcher.__init__`. -/
structure FetcherState where
  street_names : List String
  completed_queries : List (List Char)
  street_numbers : List (String × List String)
  completed_number_queries : List String
  deriving DecidableEq, Repr

/-- The state right after `__init__`: everything empty. -/
def initialState : FetcherState :=
  { street_names := []
    completed_queries := []
    street_numbers := []
    completed_number_queries := [] }

/-! ## The fetchers (`fetch_streets`, `fetch_house_numbers`)

The whole `client.get` / `raise_for_status` / `response.json()` pipeline is
embedded as one `Except String Json` input: `.error` when any of the three
raises, `.ok` with the parsed document otherwise.  The `except Exception`
handler of both fetchers is the `.error` branch.  In the extraction loop the
source appends `item["data"]` unconditionally; the live endpoint only ever
puts strings there, and the embedding extracts exactly those. -/

/-- A parsed JSON document. -/
inductive Json where
  | null : Json
  | bool : Bool → Json
  | num : Int → Json
  | str : String → Json
  | arr : List Json → Json
  | obj : List (String × Json) → Json
  deriving Repr

/-- Field lookup in a JSON object (Python `data["key"]` / `"key" in data`). -/
def jsonLookup : List (String × Json) → String → Option Json
  | [], _ => none
  | (k, v) :: t, key => if k = key then some v else jsonLookup t key

/-- lines 26-32 and 49-55: pull the `data` field out of every dict entry of
`data["suggestions"]`; anything of an unexpected shape contributes nothing. -/
def extract_suggestions (data : Json) : List String :=
  match data with
  | Json.obj fields =>
    match jsonLookup fields "suggestions" with
    | some (Json.arr items) =>
      items.foldl
        (fun acc item =>
          match item with
          | Json.obj f =>
            match jsonLookup f "data" with
            | some (Json.str v) => acc ++ [v]
            | _ => acc
          | _ => acc)
        []
    | _ => []
  | _ => []

/-- lines 18-35, `fetch_streets`: any raised exception is caught and turned
into the empty list, otherwise the suggestion data are extracted. -/
def fetch_streets (response : Except String Json) : List String :=
  match response with
  | Except.error _ => []
  | Except.ok data => extract_suggestions data

/-- lines 37-58, `fetch_house_numbers`: identical exception handling and
extraction (the `street` / `streetnr` request params only shape the HTTP call,
which is already folded into the `response` input). -/
def fetch_house_numbers (response : Except String Json) : List String :=
  match response with
  | Except.error _ => []
  | Except.ok data => extract_suggestions data

/-! ## AlphabetPruner (`get_next_characters`) -/

/-- line 63: `german_chars = "abcdefghijklmnopqrstuvwxyzäöüß"`. -/
def german_chars : List Char :=
  "abcdefghijklmnopqrstuvwxyzäöüß".toList

/-- Python `str.lower()` on the characters this program feeds it: ASCII
letters and the German umlauts (other characters are left unchanged, which
agrees with `str.lower` on every character the crawler can produce). -/
def pyLower (c : Char) : Char :=
  if c = 'Ä' then 'ä'
  else if c = 'Ö' then 'ö'
  else if c = 'Ü' then 'ü'
  else c.toLower

/-- lines 70-81: the `impossible_after` dict, in source order. -/
def impossible_after : List (Char × List Char) :=
  [ ('b', ['b', 'c', 'd', 'f', 'g', 'j', 'k', 'p', 'q', 'v', 'w', 'x', 'z'])
  , ('c', ['b', 'c', 'd', 'f', 'g', 'j', 'p', 'q', 'v', 'w', 'x', 'y', 'z'])
  , ('d', ['b', 'c', 'd', 'f', 'g', 'j', 'k', 'p', 'q', 'v', 'w', 'x', 'z'])
  , ('f', ['b', 'c', 'd', 'g', 'j', 'k', 'p', 'q', 'v', 'w', 'x', 'z'])
  , ('g', ['b', 'c', 'd', 'f', 'j', 'k', 'p', 'q', 'v', 'w', 'x', 'z'])
  , ('k', ['b', 'c', 'd', 'f', 'g', 'j', 'k', 'p', 'q', 'v', 'w', 'x', 'z'])
  , ('p', ['b', 'c', 'd', 'g', 'j', 'k', 'p', 'q', 'v', 'w', 'x', 'z'])
  , ('t', ['b', 'c', 'd', 'f', 'g', 'j', 'k', 'p', 'q', 'v', 'w', 'x'])
  , ('x', "abcdefghijklmnopqrstuvwxyzäöüß".toList)
  , ('q', "abcdefghijklmnopqrstuvwxyzäöüß".toList.filter (fun c => c ≠ 'u'))
  ]

/-- lines 60-87, `get_next_characters`: full German alphabet, filtered by the
exclusion list matching the lowercased last character of the prefix. -/
def get_next_characters (pre : List Char) : List Char :=
  match pre.getLast? with
  | none => german_chars
  | some last =>
    match impossible_after.lookup (pyLower last) with
    | some excluded => german_chars.filter (fun c => ¬ c ∈ excluded)
    | none => german_chars

/-! ## The explorers -/

/-- line 91: `query_key = f"{street}#{number_prefix}"`. -/
def keyOf (street : String) (p : List Char) : String :=
  street ++ "#" ++ String.mk p

/-- lines 129-149, `explore_prefix`: fetch the prefix, merge all results into
`street_names`, recurse over `get_next_characters` on exactly 12 results, else
mark the prefix completed.  There is no completed-queries guard in the source.
Returns the final state and the list of street queries issued. -/
def explore_prefix (suggest : List Char → List String) :
    Nat → List Char → FetcherState → FetcherState × List (List Char)
  | 0, _, s => (s, [])
  | fuel + 1, p, s =>
    let streets := suggest p
    let s1 := { s with street_names := streets.foldl setAdd s.street_names }
    if streets.length = 12 then
      (get_next_characters p).foldl
        (fun acc c =>
          let r := explore_prefix suggest fuel (p ++ [c]) acc.1
          (r.1, acc.2 ++ r.2))
        (s1, [p])
    else
      ({ s1 with completed_queries := setAdd s1.completed_queries p }, [p])

/-- lines 89-116, `explore_house_numbers`: return on a completed query key;
otherwise fetch, create the street's entry when missing, append each unseen
number, then recurse over the digits `'0'`-`'9'` on exactly 12 results, else
mark the key completed.  Returns the final state and the list of
(street, number-prefix) queries issued. -/
def explore_house_numbers (suggest : String → List Char → List String) :
    Nat → String → List Char → FetcherState → FetcherState × List (String × List Char)
  | 0, _, _, s => (s, [])
  | fuel + 1, street, p, s =>
    if keyOf street p ∈ s.completed_number_queries then (s, [])
    else
      let house_numbers := suggest street p
      let s2 := { s with street_numbers := addNumbers (ensure s.street_numbers street) street house_numbers }
      if house_numbers.length = 12 then
        "0123456789".toList.foldl
          (fun acc d =>
            let r := explore_house_numbers suggest fuel street (p ++ [d]) acc.1
            (r.1, acc.2 ++ r.2))
          (s2, [(street, p)])
      else
        ({ s2 with
            completed_number_queries := setAdd s2.completed_number_queries (keyOf street p) },
         [(street, p)])

/-- lines 118-127, `collect_house_numbers_for_street`: skip a street already
present in the index, else explore each seed digit `'1'`-`'9'`. -/
def collect_house_numbers_for_street (suggest : String → List Char → List String)
    (fuel : Nat) (street : String) (s : FetcherState) :
    FetcherState × List (String × List Char) :=
  if street ∈ dictKeys s.street_numbers then (s, [])
  else
    "123456789".toList.foldl
      (fun acc d =>
        let r := explore_house_numbers suggest fuel street [d] acc.1
        (r.1, acc.2 ++ r.2))
      (s, [])

/-- line 222: the seed letters of `main`. -/
def main_letters : List Char :=
  "ABCDEFGHIJKLMNOPQRSTUVWXYZÄÖÜ".toList

/-- lines 224-226 (street-collection loop of `main`, via
`collect_streets_starting_with`): explore each seed letter in turn. -/
def collect_streets (suggest : List Char → List String) (fuel : Nat) (s : FetcherState) :
    FetcherState × List (List Char) :=
  main_letters.foldl
    (fun acc L =>
      let r := explore_prefix suggest fuel [L] acc.1
      (r.1, acc.2 ++ r.2))
    (s, [])

/-! ## Persistence-time sorting (`save_results`) -/

/-- Python's lexicographic (code-point) string order, stated on the underlying
character lists so that it evaluates; the claim theorem identifies it with the
`String` order `≤`. -/
def strLE (a b : String) : Prop :=
  a.data ≤ b.data

instance : DecidableRel strLE := fun a b =>
  inferInstanceAs (Decidable (a.data ≤ b.data))

instance : IsTotal String strLE where
  total a b := le_total a.data b.data

instance : IsTrans String strLE where
  trans _ _ _ hab hbc := le_trans hab hbc

/-- The Python runtime's digit tables, used by the sort key at line 192:
`str.isdigit` on a character (true for Unicode Numeric_Type Decimal or Digit),
and the decimal value `int` gives a character — `none` for the digit-class
characters `int` rejects (Numeric_Type Digit but not Decimal, such as the
superscripts).  These tables live in the runtime's Unicode data, not in this
repository, so — like the HTTP endpoint — they are a parameter of the
embedding, and the theorems below hold for every instantiation;
`pyDigits_std` is the concrete fragment used to evaluate the examples. -/
structure PyDigits where
  isDigit : Char → Bool
  decVal : Char → Option Nat

/-- Python `int` applied to `''.join(filter(str.isdigit, x)) or '0'`: the
empty filter result is replaced by `'0'` (value 0); on a non-empty string of
digit-class characters `int` succeeds iff every character has a decimal
value, combining them positionally, and raises (`none`) otherwise. -/
def pyInt (sem : PyDigits) (l : List Char) : Option Nat :=
  l.foldl
    (fun acc c =>
      match acc, sem.decVal c with
      | some n, some v => some (n * 10 + v)
      | _, _ => none)
    (some 0)

/-- line 192, the numeric key of one entry:
`int(''.join(filter(str.isdigit, x)) or '0')`; `none` when `int` raises. -/
def numKeyE (sem : PyDigits) (x : String) : Option Nat :=
  pyInt sem (x.data.filter sem.isDigit)

/-- The key order of `sorted(numbers, key=lambda x: (int(...), x))`: compare
the numeric keys, break ties by the full string. -/
def numberLEs (sem : PyDigits) (a b : String) : Prop :=
  (numKeyE sem a).getD 0 < (numKeyE sem b).getD 0 ∨
    ((numKeyE sem a).getD 0 = (numKeyE sem b).getD 0 ∧ strLE a b)

instance (sem : PyDigits) : DecidableRel (numberLEs sem) := fun a b =>
  inferInstanceAs (Decidable ((numKeyE sem a).getD 0 < (numKeyE sem b).getD 0 ∨
    ((numKeyE sem a).getD 0 = (numKeyE sem b).getD 0 ∧ strLE a b)))

instance (sem : PyDigits) : IsTotal String (numberLEs sem) where
  total a b := by
    rcases Nat.lt_trichotomy ((numKeyE sem a).getD 0) ((numKeyE sem b).getD 0) with h | h | h
    · exact Or.inl (Or.inl h)
    · rcases le_total a.data b.data with hs | hs
      · exact Or.inl (Or.inr ⟨h, hs⟩)
      · exact Or.inr (Or.inr ⟨h.symm, hs⟩)
    · exact Or.inr (Or.inl h)

instance (sem : PyDigits) : IsTrans String (numberLEs sem) where
  trans a b c hab hbc := by
    rcases hab with h1 | ⟨h1, h1'⟩ <;> rcases hbc with h2 | ⟨h2, h2'⟩
    · exact Or.inl (h1.trans h2)
    · exact Or.inl (h2 ▸ h1)
    · exact Or.inl (h1 ▸ h2)
    · exact Or.inr ⟨h1.trans h2, le_trans (α := List Char) h1' h2'⟩

/-- lines 190-194: the `try` branch sorts this street's numbers by the numeric
key with string tie-break; computing the keys raises iff extraction fails for
some entry, and then the `except` branch sorts the whole list plainly
lexicographically instead.  (Python's `sorted` computes every key before any
comparison, so a failure falls back before any reordering.)  The key order and
the lexicographic order are both linear, so the sorted permutations are unique
and insertion sort implements Python's `sorted`. -/
def sortNumbers (sem : PyDigits) (numbers : List String) : List String :=
  if numbers.all (fun x => (numKeyE sem x).isSome) then
    List.insertionSort (numberLEs sem) numbers
  else
    List.insertionSort strLE numbers

/-- The three JSON snapshots written by `save_results` (lines 177-198). -/
structure SavedResults where
  street_names_file : List String
  completed_queries_file : List String
  street_numbers_file : List (String × List String)

/-- lines 177-198, `save_results`: street names and completed query keys are
written sorted lexicographically; each street's house numbers are written
sorted by `sortNumbers` under the runtime's digit tables. -/
def save_results (sem : PyDigits) (s : FetcherState) : SavedResults :=
  { street_names_file := List.insertionSort strLE s.street_names
    completed_queries_file := List.insertionSort strLE (s.completed_queries.map String.mk)
    street_numbers_file := s.street_numbers.map (fun e => (e.1, sortNumbers sem e.2)) }

/-- A concrete fragment of the runtime's digit tables, for evaluating the
examples: the ASCII decimal digits; the Arabic-Indic decimal digit `٣`
(decimal value 3, accepted by `int`); the superscripts `¹`, `²`, `³`, which
`str.isdigit` accepts but `int` rejects.  Characters outside the fragment are
treated as non-digits. -/
def pyDigits_std : PyDigits where
  isDigit c := c.isDigit || c = '٣' || c = '¹' || c = '²' || c = '³'
  decVal c :=
    if c.isDigit then some (c.toNat - '0'.toNat)
    else if c = '٣' then some 3
    else none

/-! ## Concrete inputs used in the closed instances of the theorems -/

/-- Twelve distinct street suggestions: exactly the truncation threshold. -/
def twelve_results : List String :=
  ["R01", "R02", "R03", "R04", "R05", "R06", "R07", "R08", "R09", "R10", "R11", "R12"]

/-- An endpoint holding one street beginning with `a`. -/
def oracle_a : List Char → List String :=
  fun p => if p = ['a'] then ["Neue Strasse"] else []

/-- A state whose street scope has already completed the prefix `a`. -/
def state_done_a : FetcherState :=
  { initialState with completed_queries := [['a']] }

/-- An endpoint that truncates exactly at the prefix `q`. -/
def oracle_q12 : List Char → List String :=
  fun p => if p = ['q'] then twelve_results else []

/-- A house-number endpoint that truncates exactly at the number prefix `1`. -/
def oracle_h12 : String → List Char → List String :=
  fun _ p => if p = ['1'] then twelve_results else []

/-- A house-number endpoint with a single suggestion everywhere. -/
def oracle_h1 : String → List Char → List String :=
  fun _ _ => ["3"]

/-- A state with the house-number query key `Marktplatz#1` already completed. -/
def state_done_m1 : FetcherState :=
  { initialState with completed_number_queries := ["Marktplatz#1"] }

/-- A street endpoint whose transport always fails. -/
def failing_streets : List Char → Except String Json :=
  fun _ => Except.error "HTTP 500"

/-- A house-number endpoint whose transport always fails. -/
def failing_numbers : String → List Char → Except String Json :=
  fun _ _ => Except.error "HTTP 500"

/-- A state with one street holding the spec's natural-sort example numbers. -/
def state_numbers_example : FetcherState :=
  { initialState with street_numbers := [("Beispielweg", ["10", "2", "1a", "2b"])] }

/-- A state holding one discovered street and one street's numbers already. -/
def state_seeded : FetcherState :=
  { street_names := ["Altstadtring"]
    completed_queries := []
    street_numbers := [("Beispielweg", ["10", "2", "1a", "2b"])]
    completed_number_queries := [] }

/-- A house-number endpoint that repeats a suggestion (dedup must absorb it). -/
def oracle_dup : String → List Char → List String :=
  fun _ _ => ["7", "7", "8"]

/-! ## Helper lemmas: folds, the set model, the dict model -/

theorem foldl_invariant {α β : Type} (P : α → Prop) (f : α → β → α) :
    ∀ (l : List β) (a : α), P a → (∀ x b, b ∈ l → P x → P (f x b)) → P (l.foldl f a) := by
  intro l
  induction l with
  | nil => exact fun a ha _ => ha
  | cons b t ih =>
    intro a ha hstep
    exact ih (f a b) (hstep a b (List.mem_cons_self b t) ha)
      (fun x b' hb' hx => hstep x b' (List.mem_cons_of_mem b hb') hx)

theorem foldl_log_mem {σ β γ : Type} (F : β → σ → σ × List γ) :
    ∀ (l : List β) (a : σ × List γ) (x : γ), x ∈ a.2 →
      x ∈ (l.foldl (fun acc b => ((F b acc.1).1, acc.2 ++ (F b acc.1).2)) a).2 := by
  intro l
  induction l with
  | nil => exact fun a x hx => hx
  | cons b t ih =>
    intro a x hx
    exact ih _ x (List.mem_append_left _ hx)

theorem foldl_log_reaches {σ β γ : Type} (F : β → σ → σ × List γ) (G : β → γ)
    (hF : ∀ b st, G b ∈ (F b st).2) :
    ∀ (l : List β) (a : σ × List γ) (b : β), b ∈ l →
      G b ∈ (l.foldl (fun acc b => ((F b acc.1).1, acc.2 ++ (F b acc.1).2)) a).2 := by
  intro l
  induction l with
  | nil => intro a b hb; cases hb
  | cons b0 t ih =>
    intro a b hb
    rcases List.mem_cons.mp hb with rfl | hb
    · exact foldl_log_mem F t _ (G b) (List.mem_append_right _ (hF b a.1))
    · exact ih _ b hb

theorem mem_setAdd {α : Type} [DecidableEq α] (s : List α) (x y : α) :
    y ∈ setAdd s x ↔ y ∈ s ∨ y = x := by
  by_cases h : x ∈ s <;> simp only [setAdd, h, if_true, if_false, List.mem_append,
    List.mem_singleton]
  constructor
  · exact Or.inl
  · rintro (hy | rfl)
    · exact hy
    · exact h

theorem subset_setAdd {α : Type} [DecidableEq α] (s : List α) (x : α) : s ⊆ setAdd s x :=
  fun _ hy => (mem_setAdd s x _).mpr (Or.inl hy)

theorem self_mem_setAdd {α : Type} [DecidableEq α] (s : List α) (x : α) : x ∈ setAdd s x :=
  (mem_setAdd s x x).mpr (Or.inr rfl)

theorem length_le_setAdd {α : Type} [DecidableEq α] (s : List α) (x : α) :
    s.length ≤ (setAdd s x).length := by
  by_cases h : x ∈ s <;> simp [setAdd, h]

theorem subset_foldl_setAdd {α : Type} [DecidableEq α] (l : List α) (s : List α) :
    s ⊆ l.foldl setAdd s :=
  foldl_invariant (fun m => s ⊆ m) setAdd l s (fun _ h => h)
    (fun x b _ hx => hx.trans (subset_setAdd x b))

theorem length_le_foldl_setAdd {α : Type} [DecidableEq α] (l : List α) (s : List α) :
    s.length ≤ (l.foldl setAdd s).length :=
  foldl_invariant (fun m => s.length ≤ m.length) setAdd l s le_rfl
    (fun x b _ hx => hx.trans (length_le_setAdd x b))

theorem dictFind_dictSet_self (d : List (String × List String)) (k : String) (v : List String) :
    dictFind (dictSet d k v) k = some v := by
  induction d with
  | nil => simp [dictSet, dictFind]
  | cons e t ih =>
    obtain ⟨k', v'⟩ := e
    by_cases h : k' = k <;> simp [dictSet, dictFind, h, ih]

theorem dictFind_dictSet_ne (d : List (String × List String)) {k k' : String} (v : List String)
    (h : k' ≠ k) : dictFind (dictSet d k v) k' = dictFind d k' := by
  induction d with
  | nil => simp [dictSet, dictFind, Ne.symm h]
  | cons e t ih =>
    obtain ⟨k0, v0⟩ := e
    by_cases h0 : k0 = k
    · subst h0
      simp [dictSet, dictFind, Ne.symm h]
    · by_cases h1 : k0 = k' <;> simp [dictSet, dictFind, h0, h1, h, ih]

theorem mem_dictKeys_dictSet (d : List (String × List String)) (k : String) (v : List String)
    {k' : String} (h : k' ∈ dictKeys d) : k' ∈ dictKeys (dictSet d k v) := by
  induction d with
  | nil => cases h
  | cons e t ih =>
    obtain ⟨k0, v0⟩ := e
    by_cases h0 : k0 = k
    · subst h0
      simp only [dictSet, if_pos rfl]
      simpa [dictKeys] using (by simpa [dictKeys] using h : k' = k0 ∨ k' ∈ dictKeys t)
    · simp only [dictSet, if_neg h0]
      rcases (by simpa [dictKeys] using h : k' = k0 ∨ k' ∈ dictKeys t) with rfl | hm
      · simp [dictKeys]
      · simp only [dictKeys, List.map_cons, List.mem_cons]
        exact Or.inr (by simpa [dictKeys] using ih (by simpa [dictKeys] using hm))

theorem numbersOf_addNumber_ne (d : List (String × List String)) (st : String) (n : String)
    {st' : String} (h : st' ≠ st) : numbersOf (addNumber d st n) st' = numbersOf d st' := by
  unfold addNumber numbersOf
  split
  · rfl
  · rw [dictFind_dictSet_ne _ _ h]

theorem subset_numbersOf_addNumber (d : List (String × List String)) (st : String) (n : String)
    (st' : String) : numbersOf d st' ⊆ numbersOf (addNumber d st n) st' := by
  by_cases h : st' = st
  · subst h
    unfold addNumber
    split
    · exact fun y hy => hy
    · intro y hy
      unfold numbersOf
      rw [dictFind_dictSet_self]
      exact List.mem_append_left _ hy
  · rw [numbersOf_addNumber_ne d st n h]
    exact fun y hy => hy

theorem length_numbersOf_addNumber (d : List (String × List String)) (st : String) (n : String)
    (st' : String) : (numbersOf d st').length ≤ (numbersOf (addNumber d st n) st').length := by
  by_cases h : st' = st
  · subst h
    unfold addNumber
    split
    · exact le_rfl
    · unfold numbersOf
      rw [dictFind_dictSet_self]
      simp
  · rw [numbersOf_addNumber_ne d st n h]

theorem mem_dictKeys_addNumber (d : List (String × List String)) (st : String) (n : String)
    {k : String} (h : k ∈ dictKeys d) : k ∈ dictKeys (addNumber d st n) := by
  unfold addNumber
  split
  · exact h
  · exact mem_dictKeys_dictSet _ _ _ h

theorem subset_numbersOf_addNumbers (d : List (String × List String)) (st : String)
    (ns : List String) (st' : String) :
    numbersOf d st' ⊆ numbersOf (addNumbers d st ns) st' := by
  unfold addNumbers
  exact foldl_invariant (fun m => numbersOf d st' ⊆ numbersOf m st') _ ns d (fun y hy => hy)
    (fun x b _ hx => hx.trans (subset_numbersOf_addNumber x st b st'))

theorem length_numbersOf_addNumbers (d : List (String × List String)) (st : String)
    (ns : List String) (st' : String) :
    (numbersOf d st').length ≤ (numbersOf (addNumbers d st ns) st').length := by
  unfold addNumbers
  exact foldl_invariant (fun m => (numbersOf d st').length ≤ (numbersOf m st').length) _ ns d
    le_rfl (fun x b _ hx => hx.trans (length_numbersOf_addNumber x st b st'))

theorem mem_dictKeys_addNumbers (d : List (String × List String)) (st : String)
    (ns : List String) {k : String} (h : k ∈ dictKeys d) : k ∈ dictKeys (addNumbers d st ns) := by
  unfold addNumbers
  exact foldl_invariant (fun m => k ∈ dictKeys m) _ ns d h
    (fun x b _ hx => mem_dictKeys_addNumber x st b hx)

theorem nodup_addNumber (d : List (String × List String)) (st : String) (n : String)
    (h : ∀ st', (numbersOf d st').Nodup) : ∀ st', (numbersOf (addNumber d st n) st').Nodup := by
  intro st'
  by_cases hs : st' = st
  · subst hs
    unfold addNumber
    split
    · exact h st'
    · next hn =>
      unfold numbersOf
      rw [dictFind_dictSet_self]
      simp only [Option.getD_some]
      exact List.Nodup.append (h st') (List.nodup_singleton n)
        (by simpa using fun hmem => hn (by simpa [numbersOf] using hmem))
  · rw [numbersOf_addNumber_ne d st n hs]
    exact h st'

theorem nodup_addNumbers (d : List (String × List String)) (st : String) (ns : List String)
    (h : ∀ st', (numbersOf d st').Nodup) : ∀ st', (numbersOf (addNumbers d st ns) st').Nodup := by
  unfold addNumbers
  exact foldl_invariant (fun m => ∀ st', (numbersOf m st').Nodup) _ ns d h
    (fun x b _ hx => nodup_addNumber x st b hx)

theorem keyOf_inj {street : String} {q1 q2 : List Char} (h : keyOf street q1 = keyOf street q2) :
    q1 = q2 := by
  have hd := congrArg String.data h
  simpa [keyOf, String.data_append] using hd

/-! ## Unfolding the explorers one call deep -/

theorem explore_prefix_succ (g : List Char → List String) (n : Nat) (p : List Char)
    (s : FetcherState) :
    explore_prefix g (n + 1) p s =
      if (g p).length = 12 then
        (get_next_characters p).foldl
          (fun acc c => (( explore_prefix g n (p ++ [c]) acc.1).1,
            acc.2 ++ ( explore_prefix g n (p ++ [c]) acc.1).2))
          ({ s with street_names := (g p).foldl setAdd s.street_names }, [p])
      else
        ({ s with street_names := (g p).foldl setAdd s.street_names, completed_queries := setAdd s.completed_queries p }, [p]) := rfl

theorem explore_house_succ (gh : String → List Char → List String) (n : Nat) (street : String)
    (p : List Char) (s : FetcherState) :
    explore_house_numbers gh (n + 1) street p s =
      if keyOf street p ∈ s.completed_number_queries then (s, [])
      else if (gh street p).length = 12 then
        "0123456789".toList.foldl
          (fun acc d => ((explore_house_numbers gh n street (p ++ [d]) acc.1).1,
            acc.2 ++ (explore_house_numbers gh n street (p ++ [d]) acc.1).2))
          ({ s with street_numbers := addNumbers (ensure s.street_numbers street) street (gh street p) }, [(street, p)])
      else
        ({ s with street_numbers := addNumbers (ensure s.street_numbers street) street (gh street p), completed_number_queries := setAdd s.completed_number_queries (keyOf street p) }, [(street, p)]) := rfl

/-! ## Behaviour of `explore_prefix` -/

theorem explore_prefix_untouched (g : List Char → List String) :
    ∀ (fuel : Nat) (p : List Char) (s : FetcherState),
      ( explore_prefix g fuel p s).1.street_numbers = s.street_numbers ∧
      ( explore_prefix g fuel p s).1.completed_number_queries = s.completed_number_queries := by
  intro fuel
  induction fuel with
  | zero => exact fun p s => ⟨rfl, rfl⟩
  | succ n ih =>
    intro p s
    rw [explore_prefix_succ]
    by_cases h : (g p).length = 12
    · rw [if_pos h]
      exact foldl_invariant
        (fun a : FetcherState × List (List Char) => a.1.street_numbers = s.street_numbers ∧
          a.1.completed_number_queries = s.completed_number_queries)
        _ _ _ ⟨rfl, rfl⟩
        (fun x c _ hx => ⟨((ih _ x.1).1).trans hx.1, ((ih _ x.1).2).trans hx.2⟩)
    · rw [if_neg h]
      exact ⟨rfl, rfl⟩

theorem explore_prefix_names_mono (g : List Char → List String) :
    ∀ (fuel : Nat) (p : List Char) (s : FetcherState),
      s.street_names ⊆ ( explore_prefix g fuel p s).1.street_names := by
  intro fuel
  induction fuel with
  | zero => exact fun p s y hy => hy
  | succ n ih =>
    intro p s
    rw [explore_prefix_succ]
    by_cases h : (g p).length = 12
    · rw [if_pos h]
      exact foldl_invariant (fun a : FetcherState × List (List Char) => s.street_names ⊆ a.1.street_names) _ _ _
        (subset_foldl_setAdd (g p) s.street_names)
        (fun x c _ hx y hy => ih _ x.1 (hx hy))
    · rw [if_neg h]
      exact subset_foldl_setAdd (g p) s.street_names

theorem explore_prefix_names_length (g : List Char → List String) :
    ∀ (fuel : Nat) (p : List Char) (s : FetcherState),
      s.street_names.length ≤ ( explore_prefix g fuel p s).1.street_names.length := by
  intro fuel
  induction fuel with
  | zero => exact fun p s => le_rfl
  | succ n ih =>
    intro p s
    rw [explore_prefix_succ]
    by_cases h : (g p).length = 12
    · rw [if_pos h]
      exact foldl_invariant (fun a : FetcherState × List (List Char) => s.street_names.length ≤ a.1.street_names.length) _ _ _
        (length_le_foldl_setAdd (g p) s.street_names)
        (fun x c _ hx => hx.trans (ih _ x.1))
    · rw [if_neg h]
      exact length_le_foldl_setAdd (g p) s.street_names

theorem explore_prefix_completed_mono (g : List Char → List String) :
    ∀ (fuel : Nat) (p : List Char) (s : FetcherState),
      s.completed_queries ⊆ ( explore_prefix g fuel p s).1.completed_queries := by
  intro fuel
  induction fuel with
  | zero => exact fun p s y hy => hy
  | succ n ih =>
    intro p s
    rw [explore_prefix_succ]
    by_cases h : (g p).length = 12
    · rw [if_pos h]
      exact foldl_invariant (fun a : FetcherState × List (List Char) => s.completed_queries ⊆ a.1.completed_queries) _ _ _
        (fun y hy => hy) (fun x c _ hx y hy => ih _ x.1 (hx hy))
    · rw [if_neg h]
      exact subset_setAdd s.completed_queries p

theorem explore_prefix_completed_new (g : List Char → List String) :
    ∀ (fuel : Nat) (p : List Char) (s : FetcherState) (q : List Char),
      q ∈ ( explore_prefix g fuel p s).1.completed_queries →
      q ∈ s.completed_queries ∨ p.length ≤ q.length := by
  intro fuel
  induction fuel with
  | zero => exact fun p s q hq => Or.inl hq
  | succ n ih =>
    intro p s q
    rw [explore_prefix_succ]
    by_cases h : (g p).length = 12
    · rw [if_pos h]
      refine foldl_invariant
        (fun a : FetcherState × List (List Char) => ∀ q', q' ∈ a.1.completed_queries →
          q' ∈ s.completed_queries ∨ p.length ≤ q'.length) _ _ _
        (fun q' hq' => Or.inl hq')
        (fun x c _ hx q' hq' => ?_) q
      rcases ih (p ++ [c]) x.1 q' hq' with h1 | h2
      · exact hx q' h1
      · refine Or.inr ?_
        have : p.length + 1 ≤ q'.length := by simpa using h2
        omega
    · rw [if_neg h]
      intro hq
      rcases (mem_setAdd _ _ _).mp hq with h1 | rfl
      · exact Or.inl h1
      · exact Or.inr le_rfl

theorem explore_prefix_completed_new12 (g : List Char → List String) (n : Nat) (p : List Char)
    (s : FetcherState) (q : List Char) (h12 : (g p).length = 12) :
    q ∈ ( explore_prefix g (n + 1) p s).1.completed_queries →
    q ∈ s.completed_queries ∨ p.length < q.length := by
  rw [explore_prefix_succ, if_pos h12]
  refine foldl_invariant
    (fun a : FetcherState × List (List Char) => ∀ q', q' ∈ a.1.completed_queries →
      q' ∈ s.completed_queries ∨ p.length < q'.length) _ _ _
    (fun q' hq' => Or.inl hq')
    (fun x c _ hx q' hq' => ?_) q
  rcases explore_prefix_completed_new g n (p ++ [c]) x.1 q' hq' with h1 | h2
  · exact hx q' h1
  · refine Or.inr ?_
    have : p.length + 1 ≤ q'.length := by simpa using h2
    omega

theorem explore_prefix_log_extends (g : List Char → List String) :
    ∀ (fuel : Nat) (p : List Char) (s : FetcherState) (q : List Char),
      q ∈ ( explore_prefix g fuel p s).2 → p <+: q := by
  intro fuel
  induction fuel with
  | zero => intro p s q hq; cases hq
  | succ n ih =>
    intro p s q
    rw [explore_prefix_succ]
    by_cases h : (g p).length = 12
    · rw [if_pos h]
      refine foldl_invariant (fun a : FetcherState × List (List Char) => ∀ q', q' ∈ a.2 → p <+: q') _ _ _
        (fun q' hq' => ?_) (fun x c _ hx q' hq' => ?_) q
      · rcases List.mem_singleton.mp hq' with rfl
        exact List.prefix_rfl
      · rcases List.mem_append.mp hq' with h1 | h2
        · exact hx q' h1
        · exact (List.prefix_append p [c]).trans (ih (p ++ [c]) x.1 q' h2)
    · rw [if_neg h]
      intro hq
      rcases List.mem_singleton.mp hq with rfl
      exact List.prefix_rfl

theorem explore_prefix_log_self (g : List Char → List String) (n : Nat) (p : List Char)
    (s : FetcherState) : p ∈ ( explore_prefix g (n + 1) p s).2 := by
  rw [explore_prefix_succ]
  by_cases h : (g p).length = 12
  · rw [if_pos h]
    exact foldl_log_mem (fun c st => explore_prefix g n (p ++ [c]) st) _ _ p
      (List.mem_singleton_self p)
  · rw [if_neg h]
    exact List.mem_singleton_self p

theorem explore_prefix_lt12_log (g : List Char → List String) (n : Nat) (p : List Char)
    (s : FetcherState) (h : (g p).length ≠ 12) :
    ( explore_prefix g (n + 1) p s).2 = [p] := by
  rw [explore_prefix_succ, if_neg h]

theorem explore_prefix_lt12_completed (g : List Char → List String) (n : Nat) (p : List Char)
    (s : FetcherState) (h : (g p).length ≠ 12) :
    p ∈ ( explore_prefix g (n + 1) p s).1.completed_queries := by
  rw [explore_prefix_succ, if_neg h]
  exact self_mem_setAdd s.completed_queries p

theorem explore_prefix_children_logged (g : List Char → List String) (n : Nat) (p : List Char)
    (s : FetcherState) (h12 : (g p).length = 12) :
    ∀ c ∈ get_next_characters p, p ++ [c] ∈ ( explore_prefix g (n + 2) p s).2 := by
  intro c hc
  rw [explore_prefix_succ, if_pos h12]
  exact foldl_log_reaches (fun c st => explore_prefix g (n + 1) (p ++ [c]) st)
    (fun c => p ++ [c]) (fun c st => explore_prefix_log_self g n (p ++ [c]) st) _ _ c hc

/-! ## More dict lemmas, for `ensure` -/

theorem dictFind_append (d e : List (String × List String)) (st : String) :
    dictFind (d ++ e) st = ((dictFind d st).rec (dictFind e st) (fun v => some v)) := by
  induction d with
  | nil => simp [dictFind]
  | cons a t ih =>
    obtain ⟨k0, v0⟩ := a
    by_cases h : k0 = st <;> simp [dictFind, h, ih]

theorem subset_numbersOf_ensure (d : List (String × List String)) (street st : String) :
    numbersOf d st ⊆ numbersOf (ensure d street) st := by
  unfold ensure
  split
  · exact fun y hy => hy
  · intro y hy
    unfold numbersOf at hy ⊢
    rw [dictFind_append]
    cases hfind : dictFind d st with
    | none => rw [hfind] at hy; cases hy
    | some v => rw [hfind] at hy; exact hy

theorem length_numbersOf_ensure (d : List (String × List String)) (street st : String) :
    (numbersOf d st).length ≤ (numbersOf (ensure d street) st).length := by
  unfold ensure
  split
  · exact le_rfl
  · unfold numbersOf
    rw [dictFind_append]
    cases hfind : dictFind d st with
    | none => simp
    | some v => exact le_rfl

theorem mem_dictKeys_ensure (d : List (String × List String)) (street : String) {k : String}
    (h : k ∈ dictKeys d) : k ∈ dictKeys (ensure d street) := by
  unfold ensure
  split
  · exact h
  · simpa [dictKeys] using Or.inl (by simpa [dictKeys] using h)

theorem self_mem_dictKeys_ensure (d : List (String × List String)) (street : String) :
    street ∈ dictKeys (ensure d street) := by
  unfold ensure
  split
  · next h => exact h
  · simp [dictKeys]

theorem nodup_ensure (d : List (String × List String)) (street : String)
    (h : ∀ st, (numbersOf d st).Nodup) : ∀ st, (numbersOf (ensure d street) st).Nodup := by
  intro st
  unfold ensure
  split
  · exact h st
  · unfold numbersOf
    rw [dictFind_append]
    cases hfind : dictFind d st with
    | none =>
      by_cases hs : street = st <;> simp [dictFind, hs]
    | some v => simpa [numbersOf, hfind] using h st

/-! ## Behaviour of `explore_house_numbers` -/

theorem explore_house_guard (gh : String → List Char → List String) (fuel : Nat) (street : String)
    (p : List Char) (s : FetcherState) (h : keyOf street p ∈ s.completed_number_queries) :
    explore_house_numbers gh fuel street p s = (s, []) := by
  cases fuel with
  | zero => rfl
  | succ n => rw [explore_house_succ, if_pos h]

theorem explore_house_untouched (gh : String → List Char → List String) :
    ∀ (fuel : Nat) (street : String) (p : List Char) (s : FetcherState),
      (explore_house_numbers gh fuel street p s).1.street_names = s.street_names ∧
      (explore_house_numbers gh fuel street p s).1.completed_queries = s.completed_queries := by
  intro fuel
  induction fuel with
  | zero => exact fun street p s => ⟨rfl, rfl⟩
  | succ n ih =>
    intro street p s
    rw [explore_house_succ]
    by_cases hg : keyOf street p ∈ s.completed_number_queries
    · rw [if_pos hg]; exact ⟨rfl, rfl⟩
    · rw [if_neg hg]
      by_cases h12 : (gh street p).length = 12
      · rw [if_pos h12]
        exact foldl_invariant (fun a : FetcherState × List (String × List Char) =>
            a.1.street_names = s.street_names ∧ a.1.completed_queries = s.completed_queries)
          _ _ _ ⟨rfl, rfl⟩
          (fun x d _ hx => ⟨((ih street _ x.1).1).trans hx.1, ((ih street _ x.1).2).trans hx.2⟩)
      · rw [if_neg h12]; exact ⟨rfl, rfl⟩

theorem explore_house_completed_mono (gh : String → List Char → List String) :
    ∀ (fuel : Nat) (street : String) (p : List Char) (s : FetcherState),
      s.completed_number_queries ⊆
        (explore_house_numbers gh fuel street p s).1.completed_number_queries := by
  intro fuel
  induction fuel with
  | zero => exact fun street p s y hy => hy
  | succ n ih =>
    intro street p s
    rw [explore_house_succ]
    by_cases hg : keyOf street p ∈ s.completed_number_queries
    · rw [if_pos hg]; exact fun y hy => hy
    · rw [if_neg hg]
      by_cases h12 : (gh street p).length = 12
      · rw [if_pos h12]
        exact foldl_invariant (fun a : FetcherState × List (String × List Char) =>
            s.completed_number_queries ⊆ a.1.completed_number_queries) _ _ _
          (fun y hy => hy) (fun x d _ hx y hy => ih street _ x.1 (hx hy))
      · rw [if_neg h12]
        exact subset_setAdd s.completed_number_queries (keyOf street p)

theorem explore_house_completed_new (gh : String → List Char → List String) :
    ∀ (fuel : Nat) (street : String) (p : List Char) (s : FetcherState) (k : String),
      k ∈ (explore_house_numbers gh fuel street p s).1.completed_number_queries →
      k ∈ s.completed_number_queries ∨ ∃ q, p <+: q ∧ k = keyOf street q := by
  intro fuel
  induction fuel with
  | zero => exact fun street p s k hk => Or.inl hk
  | succ n ih =>
    intro street p s k
    rw [explore_house_succ]
    by_cases hg : keyOf street p ∈ s.completed_number_queries
    · rw [if_pos hg]; exact Or.inl
    · rw [if_neg hg]
      by_cases h12 : (gh street p).length = 12
      · rw [if_pos h12]
        refine foldl_invariant (fun a : FetcherState × List (String × List Char) =>
            ∀ k', k' ∈ a.1.completed_number_queries →
              k' ∈ s.completed_number_queries ∨ ∃ q, p <+: q ∧ k' = keyOf street q) _ _ _
          (fun k' hk' => Or.inl hk') (fun x d _ hx k' hk' => ?_) k
        rcases ih street (p ++ [d]) x.1 k' hk' with h1 | ⟨q, hpre, hkey⟩
        · exact hx k' h1
        · exact Or.inr ⟨q, (List.prefix_append p [d]).trans hpre, hkey⟩
      · rw [if_neg h12]
        intro hk
        rcases (mem_setAdd _ _ _).mp hk with h1 | rfl
        · exact Or.inl h1
        · exact Or.inr ⟨p, List.prefix_rfl, rfl⟩

theorem explore_house_log_self (gh : String → List Char → List String) (n : Nat) (street : String)
    (p : List Char) (s : FetcherState) (hg : keyOf street p ∉ s.completed_number_queries) :
    (street, p) ∈ (explore_house_numbers gh (n + 1) street p s).2 := by
  rw [explore_house_succ, if_neg hg]
  by_cases h12 : (gh street p).length = 12
  · rw [if_pos h12]
    exact foldl_log_mem (fun d st => explore_house_numbers gh n street (p ++ [d]) st) _ _ _
      (List.mem_singleton_self _)
  · rw [if_neg h12]
    exact List.mem_singleton_self _

theorem explore_house_log_extends (gh : String → List Char → List String) :
    ∀ (fuel : Nat) (street : String) (p : List Char) (s : FetcherState) (st : String)
      (q : List Char), (st, q) ∈ (explore_house_numbers gh fuel street p s).2 →
      st = street ∧ p <+: q := by
  intro fuel
  induction fuel with
  | zero => intro street p s st q hq; cases hq
  | succ n ih =>
    intro street p s st q
    rw [explore_house_succ]
    by_cases hg : keyOf street p ∈ s.completed_number_queries
    · rw [if_pos hg]; intro hq; cases hq
    · rw [if_neg hg]
      by_cases h12 : (gh street p).length = 12
      · rw [if_pos h12]
        refine foldl_invariant (fun a : FetcherState × List (String × List Char) =>
            ∀ e, e ∈ a.2 → e.1 = street ∧ p <+: e.2) _ _ _
          (fun e he => ?_) (fun x d _ hx e he => ?_) (st, q)
        · rcases List.mem_singleton.mp he with rfl
          exact ⟨rfl, List.prefix_rfl⟩
        · rcases List.mem_append.mp he with h1 | h2
          · exact hx e h1
          · obtain ⟨e1, e2⟩ := e
            obtain ⟨hst, hpre⟩ := ih street (p ++ [d]) x.1 e1 e2 h2
            exact ⟨hst, (List.prefix_append p [d]).trans hpre⟩
      · rw [if_neg h12]
        intro hq
        have h := List.mem_singleton.mp hq
        rw [Prod.mk.injEq] at h
        refine ⟨h.1, ?_⟩
        rw [h.2]

theorem explore_house_ne12_log (gh : String → List Char → List String) (n : Nat) (street : String)
    (p : List Char) (s : FetcherState) (h12 : (gh street p).length ≠ 12) :
    ∀ e ∈ (explore_house_numbers gh (n + 1) street p s).2, e = (street, p) := by
  by_cases hg : keyOf street p ∈ s.completed_number_queries
  · rw [explore_house_guard gh (n + 1) street p s hg]
    intro e he; cases he
  · rw [explore_house_succ, if_neg hg, if_neg h12]
    intro e he
    exact List.mem_singleton.mp he

theorem explore_house_ne12_completed (gh : String → List Char → List String) (n : Nat)
    (street : String) (p : List Char) (s : FetcherState) (h12 : (gh street p).length ≠ 12) :
    keyOf street p ∈ (explore_house_numbers gh (n + 1) street p s).1.completed_number_queries := by
  by_cases hg : keyOf street p ∈ s.completed_number_queries
  · rw [explore_house_guard gh (n + 1) street p s hg]
    exact hg
  · rw [explore_house_succ, if_neg hg, if_neg h12]
    exact self_mem_setAdd _ _

theorem explore_house_completed_new12 (gh : String → List Char → List String) (n : Nat)
    (street : String) (p : List Char) (s : FetcherState) (k : String)
    (hg : keyOf street p ∉ s.completed_number_queries) (h12 : (gh street p).length = 12) :
    k ∈ (explore_house_numbers gh (n + 1) street p s).1.completed_number_queries →
    k ∈ s.completed_number_queries ∨ ∃ q, p.length < q.length ∧ k = keyOf street q := by
  rw [explore_house_succ, if_neg hg, if_pos h12]
  refine foldl_invariant (fun a : FetcherState × List (String × List Char) =>
      ∀ k', k' ∈ a.1.completed_number_queries →
        k' ∈ s.completed_number_queries ∨ ∃ q, p.length < q.length ∧ k' = keyOf street q) _ _ _
    ?_ (fun x d _ hx k' hk' => ?_) k
  · exact fun k' hk' => Or.inl hk'
  · rcases explore_house_completed_new gh n street (p ++ [d]) x.1 k' hk' with h1 | ⟨q, hpre, hkey⟩
    · exact hx k' h1
    · refine Or.inr ⟨q, ?_, hkey⟩
      have := hpre.length_le
      simp only [List.length_append, List.length_singleton] at this
      omega

theorem explore_house_keys_mono (gh : String → List Char → List String) :
    ∀ (fuel : Nat) (street : String) (p : List Char) (s : FetcherState) (k : String),
      k ∈ dictKeys s.street_numbers →
      k ∈ dictKeys (explore_house_numbers gh fuel street p s).1.street_numbers := by
  intro fuel
  induction fuel with
  | zero => exact fun street p s k hk => hk
  | succ n ih =>
    intro street p s k hk
    rw [explore_house_succ]
    by_cases hg : keyOf street p ∈ s.completed_number_queries
    · rw [if_pos hg]; exact hk
    · rw [if_neg hg]
      have hk2 : k ∈ dictKeys (addNumbers (ensure s.street_numbers street) street (gh street p)) :=
        mem_dictKeys_addNumbers _ _ _ (mem_dictKeys_ensure _ _ hk)
      by_cases h12 : (gh street p).length = 12
      · rw [if_pos h12]
        exact foldl_invariant (fun a : FetcherState × List (String × List Char) =>
            k ∈ dictKeys a.1.street_numbers) _ _ _ hk2
          (fun x d _ hx => ih street _ x.1 k hx)
      · rw [if_neg h12]; exact hk2

theorem explore_house_street_mem (gh : String → List Char → List String) (n : Nat)
    (street : String) (p : List Char) (s : FetcherState)
    (hg : keyOf street p ∉ s.completed_number_queries) :
    street ∈ dictKeys (explore_house_numbers gh (n + 1) street p s).1.street_numbers := by
  rw [explore_house_succ, if_neg hg]
  have hk2 : street ∈ dictKeys (addNumbers (ensure s.street_numbers street) street (gh street p)) :=
    mem_dictKeys_addNumbers _ _ _ (self_mem_dictKeys_ensure _ _)
  by_cases h12 : (gh street p).length = 12
  · rw [if_pos h12]
    exact foldl_invariant (fun a : FetcherState × List (String × List Char) =>
        street ∈ dictKeys a.1.street_numbers) _ _ _ hk2
      (fun x d _ hx => explore_house_keys_mono gh n street _ x.1 street hx)
  · rw [if_neg h12]; exact hk2

theorem explore_house_numbers_mono (gh : String → List Char → List String) :
    ∀ (fuel : Nat) (street : String) (p : List Char) (s : FetcherState) (st : String),
      numbersOf s.street_numbers st ⊆
        numbersOf (explore_house_numbers gh fuel street p s).1.street_numbers st := by
  intro fuel
  induction fuel with
  | zero => exact fun street p s st y hy => hy
  | succ n ih =>
    intro street p s st
    rw [explore_house_succ]
    by_cases hg : keyOf street p ∈ s.completed_number_queries
    · rw [if_pos hg]; exact fun y hy => hy
    · rw [if_neg hg]
      have hsub : numbersOf s.street_numbers st ⊆
          numbersOf (addNumbers (ensure s.street_numbers street) street (gh street p)) st :=
        (subset_numbersOf_ensure _ street st).trans (subset_numbersOf_addNumbers _ street _ st)
      by_cases h12 : (gh street p).length = 12
      · rw [if_pos h12]
        exact foldl_invariant (fun a : FetcherState × List (String × List Char) =>
            numbersOf s.street_numbers st ⊆ numbersOf a.1.street_numbers st) _ _ _ hsub
          (fun x d _ hx y hy => ih street _ x.1 st (hx hy))
      · rw [if_neg h12]; exact hsub

theorem explore_house_numbers_length (gh : String → List Char → List String) :
    ∀ (fuel : Nat) (street : String) (p : List Char) (s : FetcherState) (st : String),
      (numbersOf s.street_numbers st).length ≤
        (numbersOf (explore_house_numbers gh fuel street p s).1.street_numbers st).length := by
  intro fuel
  induction fuel with
  | zero => exact fun street p s st => le_rfl
  | succ n ih =>
    intro street p s st
    rw [explore_house_succ]
    by_cases hg : keyOf street p ∈ s.completed_number_queries
    · rw [if_pos hg]
    · rw [if_neg hg]
      have hlen : (numbersOf s.street_numbers st).length ≤
          (numbersOf (addNumbers (ensure s.street_numbers street) street (gh street p)) st).length :=
        (length_numbersOf_ensure _ street st).trans (length_numbersOf_addNumbers _ street _ st)
      by_cases h12 : (gh street p).length = 12
      · rw [if_pos h12]
        exact foldl_invariant (fun a : FetcherState × List (String × List Char) =>
            (numbersOf s.street_numbers st).length ≤ (numbersOf a.1.street_numbers st).length)
          _ _ _ hlen (fun x d _ hx => hx.trans (ih street _ x.1 st))
      · rw [if_neg h12]; exact hlen

theorem explore_house_nodup (gh : String → List Char → List String) :
    ∀ (fuel : Nat) (street : String) (p : List Char) (s : FetcherState),
      (∀ st, (numbersOf s.street_numbers st).Nodup) →
      ∀ st, (numbersOf (explore_house_numbers gh fuel street p s).1.street_numbers st).Nodup := by
  intro fuel
  induction fuel with
  | zero => exact fun street p s h => h
  | succ n ih =>
    intro street p s h
    rw [explore_house_succ]
    by_cases hg : keyOf street p ∈ s.completed_number_queries
    · rw [if_pos hg]; exact h
    · rw [if_neg hg]
      have h2 : ∀ st,
          (numbersOf (addNumbers (ensure s.street_numbers street) street (gh street p)) st).Nodup :=
        nodup_addNumbers _ street _ (nodup_ensure _ street h)
      by_cases h12 : (gh street p).length = 12
      · rw [if_pos h12]
        exact foldl_invariant (fun a : FetcherState × List (String × List Char) =>
            ∀ st, (numbersOf a.1.street_numbers st).Nodup) _ _ _ h2
          (fun x d _ hx => ih street _ x.1 hx)
      · rw [if_neg h12]; exact h2

theorem explore_house_fold_children (gh : String → List Char → List String) (n : Nat)
    (street : String) (p : List Char) :
    ∀ (ds : List Char) (a : FetcherState × List (String × List Char)),
      ds.Nodup →
      (∀ d ∈ ds, keyOf street (p ++ [d]) ∉ a.1.completed_number_queries) →
      ∀ d ∈ ds, (street, p ++ [d]) ∈
        (ds.foldl (fun acc d => ((explore_house_numbers gh (n + 1) street (p ++ [d]) acc.1).1,
          acc.2 ++ (explore_house_numbers gh (n + 1) street (p ++ [d]) acc.1).2)) a).2 := by
  intro ds
  induction ds with
  | nil => intro a _ _ d hd; cases hd
  | cons d0 t ih =>
    intro a hnd hkeys d hd
    rcases List.mem_cons.mp hd with rfl | hdt
    · refine foldl_log_mem (fun d st => explore_house_numbers gh (n + 1) street (p ++ [d]) st)
        t _ _ ?_
      exact List.mem_append_right _
        (explore_house_log_self gh n street (p ++ [d]) a.1 (hkeys d (List.mem_cons_self d t)))
    · refine ih _ (List.nodup_cons.mp hnd).2 ?_ d hdt
      intro d' hd' hmem
      rcases explore_house_completed_new gh (n + 1) street (p ++ [d0]) a.1 _ hmem with
        h1 | ⟨q, hpre, hkey⟩
      · exact hkeys d' (List.mem_cons_of_mem d0 hd') h1
      · have hq : p ++ [d'] = q := keyOf_inj hkey
        rw [← hq] at hpre
        have heq : p ++ [d0] = p ++ [d'] :=
          hpre.eq_of_length (by simp)
        have : d0 = d' := by
          have := List.append_cancel_left heq
          simpa using this
        exact (List.nodup_cons.mp hnd).1 (this ▸ hd')

theorem explore_house_children_logged (gh : String → List Char → List String) (n : Nat)
    (street : String) (p : List Char) (s : FetcherState)
    (hg : keyOf street p ∉ s.completed_number_queries)
    (h12 : (gh street p).length = 12)
    (hkids : ∀ d : Char, keyOf street (p ++ [d]) ∉ s.completed_number_queries) :
    ∀ d ∈ "0123456789".toList,
      (street, p ++ [d]) ∈ (explore_house_numbers gh (n + 2) street p s).2 := by
  intro d hd
  rw [explore_house_succ, if_neg hg, if_pos h12]
  exact explore_house_fold_children gh n street p _ _ (by decide)
    (fun d' _ => hkids d') d hd

/-! ## The collect drivers -/

theorem collect_skip (gh : String → List Char → List String) (fuel : Nat) (street : String)
    (s : FetcherState) (h : street ∈ dictKeys s.street_numbers) :
    collect_house_numbers_for_street gh fuel street s = (s, []) := by
  unfold collect_house_numbers_for_street
  rw [if_pos h]

theorem collect_log_seeded (gh : String → List Char → List String) (fuel : Nat) (street : String)
    (s : FetcherState) :
    ∀ st q, (st, q) ∈ (collect_house_numbers_for_street gh fuel street s).2 →
      st = street ∧ ∃ d ∈ "123456789".toList, [d] <+: q := by
  unfold collect_house_numbers_for_street
  split
  · intro st q hq; cases hq
  · refine foldl_invariant (fun a : FetcherState × List (String × List Char) =>
        ∀ st q, (st, q) ∈ a.2 → st = street ∧ ∃ d ∈ "123456789".toList, [d] <+: q) _ _ _
      ?_ ?_
    · intro st q hq; cases hq
    · intro x d hd hx st q hq
      rcases List.mem_append.mp hq with h1 | h2
      · exact hx st q h1
      · obtain ⟨hst, hpre⟩ := explore_house_log_extends gh fuel street [d] x.1 st q h2
        exact ⟨hst, ⟨d, hd, hpre⟩⟩

theorem collect_streets_seeds_logged (g : List Char → List String) (n : Nat) (s : FetcherState) :
    ∀ L ∈ main_letters, [L] ∈ (collect_streets g (n + 1) s).2 := by
  intro L hL
  unfold collect_streets
  exact foldl_log_reaches (fun L st => explore_prefix g (n + 1) [L] st) (fun L => [L])
    (fun L st => explore_prefix_log_self g n [L] st) _ _ L hL

theorem collect_streets_log_seeded (g : List Char → List String) (fuel : Nat) (s : FetcherState) :
    ∀ q ∈ (collect_streets g fuel s).2, ∃ L ∈ main_letters, [L] <+: q := by
  unfold collect_streets
  refine foldl_invariant (fun a : FetcherState × List (List Char) =>
      ∀ q ∈ a.2, ∃ L ∈ main_letters, [L] <+: q) _ _ _ ?_ ?_
  · intro q hq; cases hq
  · intro x L hL hx q hq
    rcases List.mem_append.mp hq with h1 | h2
    · exact hx q h1
    · exact ⟨L, hL, explore_prefix_log_extends g fuel [L] x.1 q h2⟩

/-! ## Claim theorems -/

/-- C1, counterexample: the street scope has no completed-queries guard.  With
the prefix `a` already in `completed_queries`, `explore_prefix` still issues
the suggest query for `a` (the log is `[a]`, not empty) and still changes the
discovered street set. -/
theorem c1_counterexample :
    ['a'] ∈ state_done_a.completed_queries ∧
    ( explore_prefix oracle_a 1 ['a'] state_done_a).2 = [['a']] ∧
    state_done_a.street_names = [] ∧
    ( explore_prefix oracle_a 1 ['a'] state_done_a).1.street_names = ["Neue Strasse"] := by
  decide

/-- C1, amended: only the house-number scope has the resumability guard.  If
`street#prefix` is in `completed_number_queries`, `explore_house_numbers` is a
query-free no-op; `explore_prefix` has no such guard and always issues the
query for its prefix, completed or not. -/
theorem c1_guard_semantics (g : List Char → List String)
    (gh : String → List Char → List String) (fuel n : Nat) (street : String) (p : List Char)
    (s : FetcherState) (h : keyOf street p ∈ s.completed_number_queries) :
    explore_house_numbers gh fuel street p s = (s, []) ∧
    p ∈ ( explore_prefix g (n + 1) p s).2 :=
  ⟨explore_house_guard gh fuel street p s h, explore_prefix_log_self g n p s⟩

theorem c1_guard_semantics_witness :
    keyOf "Marktplatz" ['1'] ∈ state_done_m1.completed_number_queries ∧
    (explore_house_numbers oracle_h1 3 "Marktplatz" ['1'] state_done_m1 =
      (state_done_m1, []) ∧
    ['1'] ∈ ( explore_prefix oracle_a 1 ['1'] state_done_m1).2) :=
  ⟨by decide,
   c1_guard_semantics oracle_a oracle_h1 3 0 "Marktplatz" ['1'] state_done_m1 (by decide)⟩

/-- C2: in either scope, a query answered with fewer than 12 results marks its
prefix completed and is the only query of the call (no children are queried);
a query answered with exactly 12 results leaves the prefix's membership in the
completed set unchanged — completion is recorded iff the query returned fewer
than 12 results. -/
theorem c2_truncation_boundary (g : List Char → List String)
    (gh : String → List Char → List String) (n : Nat) (p : List Char) (street : String)
    (s : FetcherState) :
    ((g p).length < 12 →
      p ∈ ( explore_prefix g (n + 1) p s).1.completed_queries ∧
      ( explore_prefix g (n + 1) p s).2 = [p]) ∧
    ((g p).length = 12 →
      (p ∈ ( explore_prefix g (n + 1) p s).1.completed_queries ↔ p ∈ s.completed_queries)) ∧
    ((gh street p).length < 12 →
      keyOf street p ∈ (explore_house_numbers gh (n + 1) street p s).1.completed_number_queries ∧
      ∀ e ∈ (explore_house_numbers gh (n + 1) street p s).2, e = (street, p)) ∧
    ((gh street p).length = 12 →
      (keyOf street p ∈ (explore_house_numbers gh (n + 1) street p s).1.completed_number_queries ↔
        keyOf street p ∈ s.completed_number_queries)) := by
  refine ⟨?_, ?_, ?_, ?_⟩
  · intro hlt
    have hne : (g p).length ≠ 12 := by omega
    exact ⟨explore_prefix_lt12_completed g n p s hne, explore_prefix_lt12_log g n p s hne⟩
  · intro h12
    constructor
    · intro hmem
      rcases explore_prefix_completed_new12 g n p s p h12 hmem with h | h
      · exact h
      · omega
    · exact fun hmem => explore_prefix_completed_mono g (n + 1) p s hmem
  · intro hlt
    have hne : (gh street p).length ≠ 12 := by omega
    exact ⟨explore_house_ne12_completed gh n street p s hne,
      explore_house_ne12_log gh n street p s hne⟩
  · intro h12
    constructor
    · intro hmem
      by_cases hg : keyOf street p ∈ s.completed_number_queries
      · exact hg
      · rcases explore_house_completed_new12 gh n street p s _ hg h12 hmem with
          h | ⟨q, hlen, hkey⟩
        · exact h
        · have hpq : p = q := keyOf_inj hkey
          subst hpq
          omega
    · exact fun hmem => explore_house_completed_mono gh (n + 1) street p s hmem

theorem c2_truncation_boundary_witness :
    ((oracle_a ['a']).length < 12 ∧
      ['a'] ∈ ( explore_prefix oracle_a 1 ['a'] initialState).1.completed_queries ∧
      ( explore_prefix oracle_a 1 ['a'] initialState).2 = [['a']]) ∧
    ((oracle_h1 "Haupt" ['3']).length < 12 ∧
      keyOf "Haupt" ['3'] ∈
        (explore_house_numbers oracle_h1 1 "Haupt" ['3'] initialState).1.completed_number_queries) := by
  refine ⟨⟨by decide, ?_⟩, ⟨by decide, ?_⟩⟩
  · exact (c2_truncation_boundary oracle_a oracle_h1 0 ['a'] "Haupt" initialState).1 (by decide)
  · exact ((c2_truncation_boundary oracle_a oracle_h1 0 ['3'] "Haupt" initialState).2.2.1
      (by decide)).1

/-- C3: a query answered with exactly 12 results makes the call recurse into
every child `p ++ symbol` for every symbol the generator yields for the scope
(`get_next_characters` for streets, digits 0-9 for house numbers) — each child
is queried — and the call does not itself mark `p` completed.  For the
house-number scope the child calls must not already be guarded off. -/
theorem c3_expansion_law (g : List Char → List String)
    (gh : String → List Char → List String) (n : Nat) (p : List Char) (street : String)
    (s : FetcherState) :
    ((g p).length = 12 →
      (∀ c ∈ get_next_characters p, p ++ [c] ∈ ( explore_prefix g (n + 2) p s).2) ∧
      (p ∉ s.completed_queries → p ∉ ( explore_prefix g (n + 2) p s).1.completed_queries)) ∧
    ((gh street p).length = 12 →
      keyOf street p ∉ s.completed_number_queries →
      (∀ d : Char, keyOf street (p ++ [d]) ∉ s.completed_number_queries) →
      (∀ d ∈ "0123456789".toList,
        (street, p ++ [d]) ∈ (explore_house_numbers gh (n + 2) street p s).2) ∧
      keyOf street p ∉
        (explore_house_numbers gh (n + 2) street p s).1.completed_number_queries) := by
  constructor
  · intro h12
    refine ⟨explore_prefix_children_logged g n p s h12, ?_⟩
    intro hnot hmem
    rcases explore_prefix_completed_new12 g (n + 1) p s p h12 hmem with h | h
    · exact hnot h
    · omega
  · intro h12 hg hkids
    refine ⟨explore_house_children_logged gh n street p s hg h12 hkids, ?_⟩
    intro hmem
    rcases explore_house_completed_new12 gh (n + 1) street p s _ hg h12 hmem with
      h | ⟨q, hlen, hkey⟩
    · exact hg h
    · have hpq : p = q := keyOf_inj hkey
      subst hpq
      omega

theorem c3_expansion_law_witness :
    ['q', 'u'] ∈ ( explore_prefix oracle_q12 2 ['q'] initialState).2 ∧
    ("Haupt", ['1', '0']) ∈ (explore_house_numbers oracle_h12 2 "Haupt" ['1'] initialState).2 :=
  ⟨((c3_expansion_law oracle_q12 oracle_h12 0 ['q'] "Haupt" initialState).1 (by decide)).1 'u'
      (by decide),
   ((c3_expansion_law oracle_q12 oracle_h12 0 ['1'] "Haupt" initialState).2 (by decide)
      (List.not_mem_nil _) (fun d => List.not_mem_nil _)).1 '0' (by decide)⟩

/-- C4: when the transport / HTTP-status / JSON pipeline raises, the fetchers
catch the exception and return the empty list, so the enclosing explore call
sees zero results for the prefix, queries it exactly once (no retry — the call
log is exactly that one query) and marks it completed. -/
theorem c4_failure_semantics (e : String) (R : List Char → Except String Json)
    (Rh : String → List Char → Except String Json) (n : Nat) (p : List Char) (street : String)
    (s : FetcherState) (hR : R p = Except.error e) (hRh : Rh street p = Except.error e)
    (hg : keyOf street p ∉ s.completed_number_queries) :
    fetch_streets (R p) = [] ∧ fetch_house_numbers (Rh street p) = [] ∧
    ( explore_prefix (fun q => fetch_streets (R q)) (n + 1) p s).2 = [p] ∧
    p ∈ ( explore_prefix (fun q => fetch_streets (R q)) (n + 1) p s).1.completed_queries ∧
    (explore_house_numbers (fun st q => fetch_house_numbers (Rh st q)) (n + 1) street p s).2 =
      [(street, p)] ∧
    keyOf street p ∈
      (explore_house_numbers (fun st q => fetch_house_numbers (Rh st q))
        (n + 1) street p s).1.completed_number_queries := by
  have h1 : fetch_streets (R p) = [] := by rw [hR]; rfl
  have h2 : fetch_house_numbers (Rh street p) = [] := by rw [hRh]; rfl
  have hne : ((fun q => fetch_streets (R q)) p).length ≠ 12 := by simp [h1]
  have hne2 : ((fun st q => fetch_house_numbers (Rh st q)) street p).length ≠ 12 := by
    simp [h2]
  refine ⟨h1, h2, explore_prefix_lt12_log _ n p s hne,
    explore_prefix_lt12_completed _ n p s hne, ?_,
    explore_house_ne12_completed _ n street p s hne2⟩
  rw [explore_house_succ, if_neg hg, if_neg hne2]

theorem c4_failure_semantics_witness :
    fetch_streets (failing_streets ['a']) = [] ∧
    ['a'] ∈ ( explore_prefix (fun q => fetch_streets (failing_streets q)) 1 ['a']
      initialState).1.completed_queries :=
  ⟨(c4_failure_semantics "HTTP 500" failing_streets failing_numbers 0 ['a'] "Haupt"
      initialState rfl rfl (List.not_mem_nil _)).1,
   (c4_failure_semantics "HTTP 500" failing_streets failing_numbers 0 ['a'] "Haupt"
      initialState rfl rfl (List.not_mem_nil _)).2.2.2.1⟩

/-- C5: `get_next_characters` returns the full 30-symbol alphabet (a-z plus
ä, ö, ü, ß) on an empty prefix or a last character without an exclusion rule;
the exclusion table has rules exactly for b, c, d, f, g, k, p, t, x, q; after
`b` it returns the alphabet minus b,c,d,f,g,j,k,p,q,v,w,x,z; after `x` it
returns nothing; after `q` it returns exactly `u`. -/
theorem c5_alphabet_pruner :
    german_chars = "abcdefghijklmnopqrstuvwxyzäöüß".toList ∧
    german_chars.length = 30 ∧
    impossible_after.map Prod.fst = ['b', 'c', 'd', 'f', 'g', 'k', 'p', 't', 'x', 'q'] ∧
    get_next_characters [] = german_chars ∧
    (∀ (pre : List Char) (last : Char), pre.getLast? = some last →
      impossible_after.lookup (pyLower last) = none → get_next_characters pre = german_chars) ∧
    get_next_characters ['b'] = "aehilmnorstuyäöüß".toList ∧
    get_next_characters ['x'] = [] ∧
    get_next_characters ['q'] = ['u'] := by
  refine ⟨rfl, by decide, by decide, rfl, ?_, by decide, by decide, by decide⟩
  intro pre last hlast hnone
  simp [get_next_characters, hlast, hnone]

theorem c5_alphabet_pruner_witness :
    get_next_characters ['a'] = german_chars :=
  c5_alphabet_pruner.2.2.2.2.1 ['a'] 'a' rfl (by decide)

/-- C6: at persistence time, under any instantiation of the runtime's digit
tables, the house numbers of each street whose keys all extract are sorted by
the key (numeric value of the digit characters, 0 when there are none; ties
broken by the full string) — so `["10","2","1a","2b"]` sorts to
`["1a","2","2b","10"]` — and the whole set falls back to a plain
lexicographic sort when key extraction fails for any entry (a digit-class
character `int` rejects, e.g. `²`; whereas the decimal digit `٣` extracts as
3); street names are written sorted lexicographically (`strLE` is exactly the
string order `≤`). -/
theorem c6_save_sorting (sem : PyDigits) (s : FetcherState) :
    sortNumbers pyDigits_std ["10", "2", "1a", "2b"] = ["1a", "2", "2b", "10"] ∧
    (∀ numbers : List String, (∀ x ∈ numbers, (numKeyE sem x).isSome) →
      List.Sorted (numberLEs sem) (sortNumbers sem numbers) ∧
      (sortNumbers sem numbers).Perm numbers) ∧
    (∀ numbers : List String, (∃ x ∈ numbers, numKeyE sem x = none) →
      sortNumbers sem numbers = List.insertionSort strLE numbers ∧
      List.Sorted strLE (sortNumbers sem numbers) ∧
      (sortNumbers sem numbers).Perm numbers) ∧
    numKeyE pyDigits_std "٣" = some 3 ∧
    numKeyE pyDigits_std "²a" = none ∧
    sortNumbers pyDigits_std ["²a", "10", "2"] = ["10", "2", "²a"] ∧
    List.Sorted strLE (save_results sem s).street_names_file ∧
    (save_results sem s).street_names_file.Perm s.street_names ∧
    (∀ st nums, (st, nums) ∈ s.street_numbers →
      (st, sortNumbers sem nums) ∈ (save_results sem s).street_numbers_file) ∧
    (∀ a b : String, strLE a b ↔ a ≤ b) := by
  refine ⟨by decide, ?_, ?_, by decide, by decide, by decide, ?_, ?_, ?_, ?_⟩
  · intro numbers hall
    have h : numbers.all (fun x => (numKeyE sem x).isSome) = true := by
      rw [List.all_eq_true]
      exact fun x hx => hall x hx
    unfold sortNumbers
    rw [if_pos h]
    exact ⟨List.sorted_insertionSort (numberLEs sem) numbers,
      List.perm_insertionSort (numberLEs sem) numbers⟩
  · intro numbers hex
    have h : ¬ numbers.all (fun x => (numKeyE sem x).isSome) = true := by
      rw [List.all_eq_true]
      intro hall
      obtain ⟨x, hx, hnone⟩ := hex
      have hsome := hall x hx
      rw [hnone] at hsome
      cases hsome
    unfold sortNumbers
    rw [if_neg h]
    exact ⟨rfl, List.sorted_insertionSort strLE numbers, List.perm_insertionSort strLE numbers⟩
  · exact List.sorted_insertionSort strLE s.street_names
  · exact List.perm_insertionSort strLE s.street_names
  · intro st nums h
    exact List.mem_map_of_mem (fun e => (e.1, sortNumbers sem e.2)) h
  · intro a b
    exact ⟨fun h => String.le_iff_toList_le.mpr h, fun h => String.le_iff_toList_le.mp h⟩

theorem c6_save_sorting_witness :
    sortNumbers pyDigits_std ["10", "2", "1a", "2b"] = ["1a", "2", "2b", "10"] ∧
    sortNumbers pyDigits_std ["²a", "10", "2"] = List.insertionSort strLE ["²a", "10", "2"] ∧
    ("Beispielweg", ["1a", "2", "2b", "10"]) ∈
      (save_results pyDigits_std state_numbers_example).street_numbers_file := by
  refine ⟨(c6_save_sorting pyDigits_std state_numbers_example).1, ?_, ?_⟩
  · exact ((c6_save_sorting pyDigits_std state_numbers_example).2.2.1 ["²a", "10", "2"]
      ⟨"²a", by decide, by decide⟩).1
  · have h := (c6_save_sorting pyDigits_std state_numbers_example).2.2.2.2.2.2.2.2.1
      "Beispielweg" ["10", "2", "1a", "2b"] (by decide)
    rw [(c6_save_sorting pyDigits_std state_numbers_example).1] at h
    exact h

/-- C7: the discovered sets only grow.  One `explore_prefix` call keeps every
street name already in `street_names` (the set only grows, its size is
non-decreasing) and leaves the house-number index untouched; one
`explore_house_numbers` call leaves `street_names` untouched and keeps every
recorded house number of every street, with non-decreasing counts. -/
theorem c7_discovered_monotone (g : List Char → List String)
    (gh : String → List Char → List String) (fuel : Nat) (p : List Char) (street : String)
    (s : FetcherState) :
    (s.street_names ⊆ ( explore_prefix g fuel p s).1.street_names ∧
      s.street_names.length ≤ ( explore_prefix g fuel p s).1.street_names.length ∧
      ( explore_prefix g fuel p s).1.street_numbers = s.street_numbers) ∧
    ((explore_house_numbers gh fuel street p s).1.street_names = s.street_names ∧
      (∀ st, numbersOf s.street_numbers st ⊆
        numbersOf (explore_house_numbers gh fuel street p s).1.street_numbers st) ∧
      (∀ st, (numbersOf s.street_numbers st).length ≤
        (numbersOf (explore_house_numbers gh fuel street p s).1.street_numbers st).length)) :=
  ⟨⟨explore_prefix_names_mono g fuel p s, explore_prefix_names_length g fuel p s,
      (explore_prefix_untouched g fuel p s).1⟩,
   ⟨(explore_house_untouched gh fuel street p s).1,
      fun st => explore_house_numbers_mono gh fuel street p s st,
      fun st => explore_house_numbers_length gh fuel street p s st⟩⟩

theorem c7_discovered_monotone_witness :
    "Altstadtring" ∈ ( explore_prefix oracle_a 1 ['a'] state_seeded).1.street_names ∧
    "10" ∈ numbersOf
      (explore_house_numbers oracle_h1 1 "Beispielweg" ['1'] state_seeded).1.street_numbers
      "Beispielweg" :=
  ⟨(c7_discovered_monotone oracle_a oracle_h1 1 ['a'] "Beispielweg" state_seeded).1.1
      (by decide),
   (c7_discovered_monotone oracle_a oracle_h1 1 ['a'] "Beispielweg" state_seeded).2.2.1
      "Beispielweg" (by decide)⟩

/-- C8: house-number exploration for a street is seeded only with the digits
1-9 (never the empty prefix: every query of the collection has a non-empty
prefix whose first symbol is one of 1..9), and street exploration is seeded
with each letter A-Z, Ä, Ö, Ü as the initial one-character prefix (each seed
is queried, and every street query starts with one of these letters). -/
theorem c8_seeding (g : List Char → List String) (gh : String → List Char → List String)
    (n fuel : Nat) (street : String) (s : FetcherState) :
    "123456789".toList = ['1', '2', '3', '4', '5', '6', '7', '8', '9'] ∧
    (∀ st q, (st, q) ∈ (collect_house_numbers_for_street gh fuel street s).2 →
      st = street ∧ q ≠ [] ∧ ∃ d ∈ "123456789".toList, q.head? = some d) ∧
    main_letters = ['A', 'B', 'C', 'D', 'E', 'F', 'G', 'H', 'I', 'J', 'K', 'L', 'M', 'N', 'O',
      'P', 'Q', 'R', 'S', 'T', 'U', 'V', 'W', 'X', 'Y', 'Z', 'Ä', 'Ö', 'Ü'] ∧
    (∀ L ∈ main_letters, [L] ∈ (collect_streets g (n + 1) s).2) ∧
    (∀ q ∈ (collect_streets g fuel s).2, ∃ L ∈ main_letters, q.head? = some L) := by
  refine ⟨by decide, ?_, by decide, collect_streets_seeds_logged g n s, ?_⟩
  · intro st q hq
    obtain ⟨hst, d, hd, hpre⟩ := collect_log_seeded gh fuel street s st q hq
    obtain ⟨r, hr⟩ := hpre
    refine ⟨hst, ?_, d, hd, ?_⟩
    · rw [← hr]; simp
    · rw [← hr]; rfl
  · intro q hq
    obtain ⟨L, hL, hpre⟩ := collect_streets_log_seeded g fuel s q hq
    obtain ⟨r, hr⟩ := hpre
    refine ⟨L, hL, ?_⟩
    rw [← hr]; rfl

theorem c8_seeding_witness :
    ['A'] ∈ (collect_streets oracle_a 1 initialState).2 :=
  (c8_seeding oracle_a oracle_h1 0 1 "Haupt" initialState).2.2.2.1 'A' (by decide)

/-- C9: after one `explore_house_numbers street p` call — under the run
invariant that a completed key for `(street, p)` implies the street's entry
already exists (`completed_number_queries` starts empty every run and keys are
only completed after the entry is created) — the street is a key of the
house-number index; a street that is a key makes every subsequent
`collect_house_numbers_for_street` a query-free no-op, and key presence is
preserved by any further `explore_house_numbers` call. -/
theorem c9_street_key_resumability (gh : String → List Char → List String) (n fuel : Nat)
    (street : String) (p : List Char) (s : FetcherState)
    (hkey : keyOf street p ∈ s.completed_number_queries →
      street ∈ dictKeys s.street_numbers) :
    street ∈ dictKeys (explore_house_numbers gh (n + 1) street p s).1.street_numbers ∧
    (∀ (gh' : String → List Char → List String) (s' : FetcherState),
      street ∈ dictKeys s'.street_numbers →
      collect_house_numbers_for_street gh' fuel street s' = (s', [])) ∧
    (∀ (gh' : String → List Char → List String) (fuel' : Nat) (street' : String)
      (p' : List Char) (s' : FetcherState), street ∈ dictKeys s'.street_numbers →
      street ∈ dictKeys (explore_house_numbers gh' fuel' street' p' s').1.street_numbers) := by
  refine ⟨?_, ?_, ?_⟩
  · by_cases hg : keyOf street p ∈ s.completed_number_queries
    · rw [explore_house_guard gh (n + 1) street p s hg]
      exact hkey hg
    · exact explore_house_street_mem gh n street p s hg
  · exact fun gh' s' h => collect_skip gh' fuel street s' h
  · exact fun gh' fuel' street' p' s' h =>
      explore_house_keys_mono gh' fuel' street' p' s' street h

theorem c9_street_key_resumability_witness :
    "Haupt" ∈ dictKeys (explore_house_numbers oracle_h1 1 "Haupt" ['1']
      initialState).1.street_numbers ∧
    collect_house_numbers_for_street oracle_h1 1 "Haupt"
        (explore_house_numbers oracle_h1 1 "Haupt" ['1'] initialState).1 =
      ((explore_house_numbers oracle_h1 1 "Haupt" ['1'] initialState).1, []) := by
  have h := c9_street_key_resumability oracle_h1 0 1 "Haupt" ['1'] initialState
    (fun h => absurd h (List.not_mem_nil _))
  exact ⟨h.1, h.2.1 oracle_h1 _ h.1⟩

/-- C10: `explore_house_numbers` appends a fetched number only when it is not
already in the street's list, so "no duplicates in any street's house-number
list" is preserved by every call. -/
theorem c10_numbers_nodup (gh : String → List Char → List String) (fuel : Nat) (street : String)
    (p : List Char) (s : FetcherState)
    (h : ∀ st, (numbersOf s.street_numbers st).Nodup) :
    ∀ st, (numbersOf (explore_house_numbers gh fuel street p s).1.street_numbers st).Nodup :=
  explore_house_nodup gh fuel street p s h

theorem c10_numbers_nodup_witness :
    (numbersOf (explore_house_numbers oracle_dup 1 "Haupt" ['1']
      initialState).1.street_numbers "Haupt").Nodup :=
  c10_numbers_nodup oracle_dup 1 "Haupt" ['1'] initialState (fun _ => List.nodup_nil) "Haupt"

end Stuttgart
